import Mathlib

/-!
Verification of the sorted-collection recovery core
(`engine/sorted_collection/rebuilder.cpp`).

The C++ code is shallowly embedded: persistent records (`DLRecord`) become a
Lean structure carrying their own persistent-memory offset (`off`) so that
C++ pointer comparisons become offset comparisons; persistent memory becomes
a function from offsets to optional records; loops over `old_version` chains
take explicit fuel (the embedding returns `none` on fuel exhaustion, and
`some r` when the C++ loop terminates with result `r`).  `kvdk_assert` is a
debug assertion compiled out of release builds, so it is modelled as a no-op
on control flow; where a claim relies on an asserted invariant, that
invariant appears as an explicit hypothesis.
-/

namespace KVDK

/-- Record type tag of a `DLRecord` (`RecordType`). -/
inductive RecordType where
  | SortedRecord
  | SortedElem
  | Empty
deriving DecidableEq, Repr

/-- Record status of a `DLRecord` (`RecordStatus`). -/
inductive RecordStatus where
  | Normal
  | Outdated
deriving DecidableEq, Repr

/-- Engine status codes used by the rebuilder (`Status`). -/
inductive Status where
  | Ok
  | NotFound
  | Abort
  | MemoryOverflow
  | PmemOverflow
deriving DecidableEq, Repr

/-- The null persistent-memory offset (`kNullPMemOffset`). -/
def kNullPMemOffset : Nat := 0

/-- Persistent record (`DLRecord`).  `off` is the record's own
persistent-memory offset (its address), so C++ pointer equality between two
records is `off` equality.  `id` is `Skiplist::FetchID` of the record, `key`
its user key, `valid` the result of `Validate()` (checksum), `expired` the
result of `HasExpired()`. -/
structure DLRecord where
  off : Nat
  typ : RecordType
  status : RecordStatus
  id : Nat
  key : String
  timestamp : Nat
  prev : Nat
  next : Nat
  old_version : Nat
  valid : Bool
  expired : Bool
deriving DecidableEq, Repr

/-- Persistent memory: a partial map from offsets to records. -/
def Mem : Type := Nat → Option DLRecord

/-- `PMEMAllocator::offset2addr<DLRecord>`: returns null (`none`) on the null
offset, otherwise dereferences the offset. -/
def offset2addr (m : Mem) (o : Nat) : Option DLRecord :=
  if o = kNullPMemOffset then none else m o

/-- Store a record at its own offset (a persistent in-place field update). -/
def memUpd (m : Mem) (r : DLRecord) : Mem :=
  fun o => if o = r.off then some r else m o

/-- Modelled from the spec: `recoverToCheckpoint()` (declared in the missing
`rebuilder.hpp`) — "recovery targets a checkpoint iff the checkpoint
timestamp is greater than zero / set" (spec §4.1, §4.6). -/
def recoverToCheckpoint (ckpt : Nat) : Bool :=
  decide (0 < ckpt)

/-- One step of the `findCheckpointVersion` loop body after the timestamp
test: dereference `curr->old_version`, then null the cursor if the
dereferenced ancestor's collection ID differs from the input's
(rebuilder.cpp:686-699).  The `kvdk_assert`s on `Validate()` and key
equality are debug assertions and do not alter the walk. -/
def derefOlderVersion (m : Mem) (id : Nat) (c : DLRecord) : Option DLRecord :=
  match offset2addr m c.old_version with
  | none => none
  | some a => if a.id ≠ id then none else some a

/-- The `while` loop of `findCheckpointVersion` (rebuilder.cpp:685-700) with
explicit fuel.  Returns `none` when fuel runs out, otherwise `some` of the
final cursor value (which is itself an `Option DLRecord`, null when the
chain ended or an ancestor's ID differed). -/
def findCheckpointVersionLoop (m : Mem) (ckpt : Nat) (id : Nat) :
    Nat → Option DLRecord → Option (Option DLRecord)
  | _, none => some none
  | 0, some _ => none
  | fuel + 1, some c =>
      if ckpt < c.timestamp then
        findCheckpointVersionLoop m ckpt id fuel (derefOlderVersion m id c)
      else
        some (some c)

/-- `SortedCollectionRebuilder::findCheckpointVersion`
(rebuilder.cpp:676-702): if recovery is not checkpoint-targeted, return the
input unchanged; else walk the `old_version` chain while the cursor's
timestamp exceeds the checkpoint timestamp. -/
def findCheckpointVersion (m : Mem) (ckpt : Nat) (rec : DLRecord)
    (fuel : Nat) : Option (Option DLRecord) :=
  if recoverToCheckpoint ckpt then
    findCheckpointVersionLoop m ckpt rec.id fuel (some rec)
  else
    some (some rec)

/-- The checked ancestor chain: `ancChain m id rec k` is the cursor after
`k` dereference-and-ID-check steps from `rec`. -/
def ancChain (m : Mem) (id : Nat) (rec : DLRecord) : Nat → Option DLRecord
  | 0 => some rec
  | k + 1 => (ancChain m id rec k).bind (derefOlderVersion m id)

/-- Generalisation of `ancChain` to an optional starting cursor. -/
def chainFrom (m : Mem) (id : Nat) (cur : Option DLRecord) :
    Nat → Option DLRecord
  | 0 => cur
  | k + 1 => (chainFrom m id cur k).bind (derefOlderVersion m id)

theorem chainFrom_none (m : Mem) (id : Nat) :
    ∀ k, chainFrom m id none k = none := by
  intro k
  induction k with
  | zero => rfl
  | succ k ih =>
      show (chainFrom m id none k).bind _ = none
      rw [ih]
      rfl

theorem ancChain_eq_chainFrom (m : Mem) (id : Nat) (rec : DLRecord) :
    ∀ k, ancChain m id rec k = chainFrom m id (some rec) k := by
  intro k
  induction k with
  | zero => rfl
  | succ k ih => simp [ancChain, chainFrom, ih]

theorem chainFrom_shift (m : Mem) (id : Nat) (cur : Option DLRecord) :
    ∀ k, chainFrom m id cur (k + 1) =
      chainFrom m id (cur.bind (derefOlderVersion m id)) k := by
  intro k
  induction k with
  | zero => rfl
  | succ k ih =>
      show (chainFrom m id cur (k + 1)).bind _ = _
      rw [ih]
      rfl

theorem derefOlderVersion_id (m : Mem) (id : Nat) (c a : DLRecord)
    (h : derefOlderVersion m id c = some a) : a.id = id := by
  unfold derefOlderVersion at h
  cases hm : offset2addr m c.old_version with
  | none => rw [hm] at h; exact absurd h (by simp)
  | some b =>
      rw [hm] at h
      by_cases hid : b.id ≠ id
      · simp [hid] at h
      · simp [hid] at h
        subst h
        simpa using hid

theorem derefOlderVersion_eq_none_iff (m : Mem) (id : Nat) (c : DLRecord) :
    derefOlderVersion m id c = none ↔
      (offset2addr m c.old_version = none ∨
        ∃ b, offset2addr m c.old_version = some b ∧ b.id ≠ id) := by
  unfold derefOlderVersion
  cases hm : offset2addr m c.old_version with
  | none => simp
  | some b =>
      by_cases hid : b.id = id
      · simp [hid]
      · simp [hid]

/-- If the chain from a live cursor dies at step `k`, there is a last live
step `j < k` whose dereference failed. -/
theorem chainFrom_none_last (m : Mem) (id : Nat) :
    ∀ k (cur : Option DLRecord) (a : DLRecord), cur = some a →
      chainFrom m id cur k = none →
      ∃ j, j < k ∧ ∃ x, chainFrom m id cur j = some x ∧
        derefOlderVersion m id x = none := by
  intro k
  induction k with
  | zero =>
      intro cur a hcur hnone
      rw [hcur] at hnone
      exact absurd hnone (by simp [chainFrom])
  | succ k ih =>
      intro cur a hcur hnone
      have hstep : chainFrom m id cur (k + 1) =
          (chainFrom m id cur k).bind (derefOlderVersion m id) := rfl
      rw [hstep] at hnone
      cases hk : chainFrom m id cur k with
      | none =>
          obtain ⟨j, hj, x, hx, hd⟩ := ih cur a hcur hk
          exact ⟨j, Nat.lt_succ_of_lt hj, x, hx, hd⟩
      | some x =>
          rw [hk] at hnone
          exact ⟨k, Nat.lt_succ_self k, x, hk, by simpa using hnone⟩

/-- Characterisation of the `findCheckpointVersion` loop: when fuel
suffices, the result is the cursor after some number of checked dereference
steps, all strictly earlier cursors have timestamps above the checkpoint,
and a non-null result has timestamp at most the checkpoint and the tracked
collection ID. -/
theorem findCheckpointVersionLoop_spec (m : Mem) (ckpt : Nat) (id : Nat) :
    ∀ (fuel : Nat) (cur : Option DLRecord) (res : Option DLRecord),
      (∀ a, cur = some a → a.id = id) →
      findCheckpointVersionLoop m ckpt id fuel cur = some res →
      ∃ k, chainFrom m id cur k = res ∧
        (∀ j, j < k → ∀ a, chainFrom m id cur j = some a →
          ckpt < a.timestamp) ∧
        (∀ r, res = some r → r.timestamp ≤ ckpt ∧ r.id = id) := by
  intro fuel
  induction fuel with
  | zero =>
      intro cur res hid hloop
      cases cur with
      | none =>
          have hres0 : res = none := by
            simpa [findCheckpointVersionLoop] using hloop.symm
          refine ⟨0, by simp [chainFrom, hres0], by omega, ?_⟩
          intro r hr
          rw [hres0] at hr
          exact absurd hr (by simp)
      | some c => exact absurd hloop (by simp [findCheckpointVersionLoop])
  | succ fuel ih =>
      intro cur res hid hloop
      cases cur with
      | none =>
          have hres0 : res = none := by
            simpa [findCheckpointVersionLoop] using hloop.symm
          refine ⟨0, by simp [chainFrom, hres0], by omega, ?_⟩
          intro r hr
          rw [hres0] at hr
          exact absurd hr (by simp)
      | some c =>
          by_cases hts : ckpt < c.timestamp
          · have hloop' : findCheckpointVersionLoop m ckpt id fuel
                (derefOlderVersion m id c) = some res := by
              simpa [findCheckpointVersionLoop, hts] using hloop
            have hid' : ∀ a, derefOlderVersion m id c = some a → a.id = id :=
              fun a ha => derefOlderVersion_id m id c a ha
            obtain ⟨k, hchain, hwalk, hres⟩ := ih _ res hid' hloop'
            refine ⟨k + 1, ?_, ?_, hres⟩
            · rw [chainFrom_shift]
              simpa using hchain
            · intro j hj a ha
              cases j with
              | zero =>
                  simp only [chainFrom] at ha
                  cases ha
                  exact hts
              | succ j =>
                  rw [chainFrom_shift] at ha
                  exact hwalk j (by omega) a (by simpa using ha)
          · have hres : res = some c := by
              have := hloop
              simp [findCheckpointVersionLoop, hts] at this
              exact this.symm
            refine ⟨0, by simpa [chainFrom] using hres.symm, by omega, ?_⟩
            intro r hr
            rw [hres] at hr
            cases hr
            exact ⟨by omega, hid c rfl⟩

/-- C1.  `findCheckpointVersion`: with checkpoint recovery untargeted the
input is returned unchanged; otherwise the walk returns the first (youngest)
member of the checked `old_version` chain with timestamp at most the
checkpoint, walking only while timestamps exceed the checkpoint, and returns
null exactly by the chain ending (null/unmapped `old_version`) or by an
ancestor whose collection ID differs from the input's. -/
theorem C1_findCheckpointVersion_correct (m : Mem) (ckpt : Nat)
    (rec : DLRecord) (fuel : Nat) (res : Option DLRecord)
    (h : findCheckpointVersion m ckpt rec fuel = some res) :
    (recoverToCheckpoint ckpt = false → res = some rec) ∧
    (recoverToCheckpoint ckpt = true →
      ∃ k, ancChain m rec.id rec k = res ∧
        (∀ j, j < k → ∀ a, ancChain m rec.id rec j = some a →
          ckpt < a.timestamp) ∧
        (∀ r, res = some r → r.timestamp ≤ ckpt ∧ r.id = rec.id) ∧
        (res = none → ∃ j, j < k ∧ ∃ x, ancChain m rec.id rec j = some x ∧
          ckpt < x.timestamp ∧
          (offset2addr m x.old_version = none ∨
            ∃ b, offset2addr m x.old_version = some b ∧ b.id ≠ rec.id))) := by
  constructor
  · intro hck
    unfold findCheckpointVersion at h
    rw [hck] at h
    simpa using h.symm
  · intro hck
    unfold findCheckpointVersion at h
    rw [hck] at h
    simp only [if_true] at h
    obtain ⟨k, hchain, hwalk, hres⟩ :=
      findCheckpointVersionLoop_spec m ckpt rec.id fuel (some rec) res
        (fun a ha => by cases ha; rfl) h
    refine ⟨k, by rw [ancChain_eq_chainFrom]; exact hchain, ?_, hres, ?_⟩
    · intro j hj a ha
      rw [ancChain_eq_chainFrom] at ha
      exact hwalk j hj a ha
    · intro hnone
      rw [hnone] at hchain
      obtain ⟨j, hj, x, hx, hd⟩ :=
        chainFrom_none_last m rec.id k (some rec) rec rfl hchain
      refine ⟨j, hj, x, by rw [ancChain_eq_chainFrom]; exact hx, ?_, ?_⟩
      · exact hwalk j hj x hx
      · exact (derefOlderVersion_eq_none_iff m rec.id x).mp hd

/-- Concrete two-version chain used to exercise `findCheckpointVersion`:
the younger version at offset 1 points to the older one at offset 2. -/
def c1wOld : DLRecord :=
  ⟨2, .SortedElem, .Normal, 7, "k", 50, 10, 11, kNullPMemOffset, true, false⟩

def c1wRec : DLRecord :=
  ⟨1, .SortedElem, .Normal, 7, "k", 200, 10, 11, 2, true, false⟩

def c1wMem : Mem :=
  fun o => if o = 1 then some c1wRec else if o = 2 then some c1wOld else none

/-- Witness for C1 at a concrete two-version chain with checkpoint 100. -/
theorem C1_findCheckpointVersion_correct_witness :
    (recoverToCheckpoint 100 = false →
      (some c1wOld : Option DLRecord) = some c1wRec) ∧
    (recoverToCheckpoint 100 = true →
      ∃ k, ancChain c1wMem c1wRec.id c1wRec k = some c1wOld ∧
        (∀ j, j < k → ∀ a, ancChain c1wMem c1wRec.id c1wRec j = some a →
          100 < a.timestamp) ∧
        (∀ r, (some c1wOld : Option DLRecord) = some r →
          r.timestamp ≤ 100 ∧ r.id = c1wRec.id) ∧
        ((some c1wOld : Option DLRecord) = none →
          ∃ j, j < k ∧ ∃ x, ancChain c1wMem c1wRec.id c1wRec j = some x ∧
            100 < x.timestamp ∧
            (offset2addr c1wMem x.old_version = none ∨
              ∃ b, offset2addr c1wMem x.old_version = some b ∧
                b.id ≠ c1wRec.id))) :=
  C1_findCheckpointVersion_correct c1wMem 100 c1wRec 5 (some c1wOld) rfl

/-- Records for the C5 counterexample: the older version fails `Validate()`
and carries a different user key, but shares the collection ID. -/
def c5B : DLRecord :=
  ⟨2, .SortedElem, .Normal, 9, "other", 50, 10, 11, kNullPMemOffset, false,
    false⟩

def c5A : DLRecord :=
  ⟨1, .SortedElem, .Normal, 9, "k", 200, 10, 11, 2, true, false⟩

def c5Mem : Mem :=
  fun o => if o = 1 then some c5A else if o = 2 then some c5B else none

/-- C5 counterexample.  The walk of `findCheckpointVersion` visits the older
version `c5B`, which fails `Validate()` and has a different user key than
the input, yet the walk returns `c5B` rather than null: `Validate()` failure
and key mismatch are `kvdk_assert` debug checks (rebuilder.cpp:689-695) and
do not abort the walk. -/
theorem C5_validate_key_do_not_abort_counterexample :
    findCheckpointVersion c5Mem 100 c5A 5 = some (some c5B) ∧
    c5B.valid = false ∧ c5B.key ≠ c5A.key ∧
    (some c5B : Option DLRecord) ≠ none := by
  refine ⟨rfl, rfl, ?_, by simp⟩
  decide

/-- Erase the fields `findCheckpointVersion` never branches on:
`Validate()` (checksum) and the user key. -/
def scrubVersionMeta (r : DLRecord) : DLRecord :=
  { r with valid := true, key := "" }

def scrubMem (m : Mem) : Mem :=
  fun o => (m o).map scrubVersionMeta

theorem derefOlderVersion_scrub (m : Mem) (id : Nat) (c : DLRecord) :
    derefOlderVersion (scrubMem m) id (scrubVersionMeta c) =
      (derefOlderVersion m id c).map scrubVersionMeta := by
  unfold derefOlderVersion offset2addr scrubMem scrubVersionMeta
  by_cases h0 : c.old_version = kNullPMemOffset
  · simp [h0]
  · simp only [h0, if_false]
    cases m c.old_version with
    | none => simp
    | some b =>
        by_cases hid : b.id = id
        · simp [hid]
        · simp [hid]

theorem findCheckpointVersionLoop_scrub (m : Mem) (ckpt : Nat) (id : Nat) :
    ∀ (fuel : Nat) (cur : Option DLRecord),
      findCheckpointVersionLoop (scrubMem m) ckpt id fuel
          (cur.map scrubVersionMeta) =
        (findCheckpointVersionLoop m ckpt id fuel cur).map
          (Option.map scrubVersionMeta) := by
  intro fuel
  induction fuel with
  | zero =>
      intro cur
      cases cur with
      | none => rfl
      | some c => rfl
  | succ fuel ih =>
      intro cur
      cases cur with
      | none => rfl
      | some c =>
          show findCheckpointVersionLoop (scrubMem m) ckpt id (fuel + 1)
              (some (scrubVersionMeta c)) = _
          by_cases hts : ckpt < c.timestamp
          · have hts' : ckpt < (scrubVersionMeta c).timestamp := hts
            simp only [findCheckpointVersionLoop, hts, hts', if_true]
            rw [derefOlderVersion_scrub]
            exact ih (derefOlderVersion m id c)
          · have hts' : ¬ ckpt < (scrubVersionMeta c).timestamp := hts
            simp [findCheckpointVersionLoop, hts, hts']

/-- The `findCheckpointVersion` loop aborts to null when a dereferenced
older version's collection ID differs. -/
theorem findCheckpointVersionLoop_abort (m : Mem) (ckpt : Nat) (id : Nat) :
    ∀ (j fuel : Nat) (cur : Option DLRecord) (a : DLRecord),
      chainFrom m id cur j = some a →
      (∀ i, i ≤ j → ∀ x, chainFrom m id cur i = some x →
        ckpt < x.timestamp) →
      derefOlderVersion m id a = none →
      j < fuel →
      findCheckpointVersionLoop m ckpt id fuel cur = some none := by
  intro j
  induction j with
  | zero =>
      intro fuel cur a hchain hwalk hd hfuel
      have hcur : cur = some a := hchain
      obtain ⟨f, rfl⟩ : ∃ f, fuel = f + 1 :=
        ⟨fuel - 1, by omega⟩
      rw [hcur]
      have hts : ckpt < a.timestamp := hwalk 0 (by omega) a hchain
      simp only [findCheckpointVersionLoop, hts, if_true, hd]
  | succ j ih =>
      intro fuel cur a hchain hwalk hd hfuel
      cases cur with
      | none =>
          rw [chainFrom_none m id (j + 1)] at hchain
          exact absurd hchain (by simp)
      | some c =>
          obtain ⟨f, rfl⟩ : ∃ f, fuel = f + 1 := ⟨fuel - 1, by omega⟩
          have hts : ckpt < c.timestamp := hwalk 0 (by omega) c rfl
          simp only [findCheckpointVersionLoop, hts, if_true]
          have hshift : chainFrom m id (derefOlderVersion m id c) j =
              some a := by
            have := chainFrom_shift m id (some c) j
            rw [this] at hchain
            simpa using hchain
          refine ih f (derefOlderVersion m id c) a hshift ?_ hd (by omega)
          intro i hi x hx
          have := chainFrom_shift m id (some c) i
          exact hwalk (i + 1) (by omega) x (by rw [this]; simpa using hx)

/-- C5 amended.  During the `findCheckpointVersion` walk, only an older
version with a different collection ID aborts the walk to null; an older
version failing `Validate()` or with a different user key is checked only by
debug assertions and does not abort the walk — the walk's result is
independent of every record's `valid` and `key` fields. -/
theorem C5_only_id_mismatch_aborts (m : Mem) (ckpt : Nat) (rec : DLRecord)
    (fuel j : Nat) (a : DLRecord)
    (hck : recoverToCheckpoint ckpt = true)
    (hchain : ancChain m rec.id rec j = some a)
    (hwalk : ∀ i, i ≤ j → ∀ x, ancChain m rec.id rec i = some x →
      ckpt < x.timestamp)
    (hd : derefOlderVersion m rec.id a = none)
    (hfuel : j < fuel) :
    findCheckpointVersion m ckpt rec fuel = some none ∧
    (∀ (m₂ : Mem) (ck₂ : Nat) (r₂ : DLRecord) (f₂ : Nat),
      findCheckpointVersion (scrubMem m₂) ck₂ (scrubVersionMeta r₂) f₂ =
        (findCheckpointVersion m₂ ck₂ r₂ f₂).map
          (Option.map scrubVersionMeta)) := by
  constructor
  · unfold findCheckpointVersion
    rw [hck]
    simp only [if_true]
    refine findCheckpointVersionLoop_abort m ckpt rec.id j fuel (some rec) a
      ?_ ?_ hd hfuel
    · rw [← ancChain_eq_chainFrom]
      exact hchain
    · intro i hi x hx
      rw [← ancChain_eq_chainFrom] at hx
      exact hwalk i hi x hx
  · intro m₂ ck₂ r₂ f₂
    unfold findCheckpointVersion
    by_cases hck₂ : recoverToCheckpoint ck₂ = true
    · rw [hck₂]
      simp only [if_true]
      have := findCheckpointVersionLoop_scrub m₂ ck₂
        (scrubVersionMeta r₂).id f₂ (some r₂)
      simpa [scrubVersionMeta] using this
    · rw [eq_false_of_ne_true hck₂]
      simp

/-- Records for the C5-amended witness: the older version at offset 2
belongs to a different collection (ID 8 vs 9). -/
def c5wB : DLRecord :=
  ⟨2, .SortedElem, .Normal, 8, "k", 50, 10, 11, kNullPMemOffset, true, false⟩

def c5wA : DLRecord :=
  ⟨1, .SortedElem, .Normal, 9, "k", 200, 10, 11, 2, true, false⟩

def c5wMem : Mem :=
  fun o => if o = 1 then some c5wA else if o = 2 then some c5wB else none

/-- Witness for the amended C5: the ID-mismatching ancestor aborts the
walk to null on a concrete chain. -/
theorem C5_only_id_mismatch_aborts_witness :
    findCheckpointVersion c5wMem 100 c5wA 5 = some none :=
  (C5_only_id_mismatch_aborts c5wMem 100 c5wA 5 0 c5wA rfl rfl
    (by
      intro i hi x hx
      interval_cases i
      cases hx
      decide)
    (by decide) (by omega)).1

/-- Modelled from the spec: `DLListRecoveryUtils::CheckPrevLinkage`
(declared outside this file's source) — the record's `prev` neighbour points
back to the record, invariant I1 (spec §3, §4.2, §6). -/
def CheckPrevLinkage (m : Mem) (r : DLRecord) : Bool :=
  ((offset2addr m r.prev).map (fun p => p.next == r.off)).getD false

/-- Modelled from the spec: `DLListRecoveryUtils::CheckNextLinkage`
(declared outside this file's source) — the record's `next` neighbour points
back to the record, invariant I1 (spec §3, §4.2, §6). -/
def CheckNextLinkage (m : Mem) (r : DLRecord) : Bool :=
  ((offset2addr m r.next).map (fun n => n.prev == r.off)).getD false

/-- Modelled from the spec: `DLListRecoveryUtils::CheckLinkage` (declared
outside this file's source) — both sides of invariant I1 hold (spec §3 I1,
§4.7). -/
def CheckLinkage (m : Mem) (r : DLRecord) : Bool :=
  CheckPrevLinkage m r && CheckNextLinkage m r

/-- Modelled from the spec: `Skiplist::MatchType` (declared outside this
file's source) — the record is a sorted-collection record, i.e. a header
(`SortedRecord`) or an element (`SortedElem`) (spec §3, §6). -/
def MatchType (r : DLRecord) : Bool :=
  r.typ == .SortedRecord || r.typ == .SortedElem

/-! ### Rollback (rebuilder.cpp:95-117) -/

/-- The list mutation `Rollback` performs, observed abstractly
(`Skiplist::Remove` / `Skiplist::Replace` live outside this file's
source). -/
inductive RollbackAction where
  | removed
  | replacedBy (oldv : Option DLRecord)
  | skipped
deriving DecidableEq, Repr

structure RollbackEffect where
  action : RollbackAction
  destroyed : Bool
deriving DecidableEq, Repr

/-- `SortedCollectionRebuilder::Rollback` (rebuilder.cpp:95-117): load the
element at the log entry's offset; if it validates and its prev linkage is
intact, remove it when `old_version` is null and replace it by the
old-version record otherwise; always `Destroy()` it; always return `Ok`. -/
def Rollback (m : Mem) (log_offset : Nat) : Status × Option RollbackEffect :=
  match offset2addr m log_offset with
  | none => (.Ok, none)
  | some elem =>
      if elem.valid && CheckPrevLinkage m elem then
        if elem.old_version ≠ kNullPMemOffset then
          (.Ok, some ⟨.replacedBy (offset2addr m elem.old_version), true⟩)
        else
          (.Ok, some ⟨.removed, true⟩)
      else
        (.Ok, some ⟨.skipped, true⟩)

/-- C7.  `Rollback` on a loadable log entry: the element is removed when it
validates with intact prev linkage and has a null `old_version`, replaced by
its old-version record when it validates with intact prev linkage and a
non-null `old_version`, and in every case — including validation or linkage
failure — the element is destroyed before `Rollback` returns. -/
theorem C7_rollback_behaviour (m : Mem) (off : Nat) (elem : DLRecord)
    (h : offset2addr m off = some elem) :
    ∃ eff, Rollback m off = (.Ok, some eff) ∧ eff.destroyed = true ∧
      (elem.valid = true → CheckPrevLinkage m elem = true →
        (elem.old_version = kNullPMemOffset → eff.action = .removed) ∧
        (elem.old_version ≠ kNullPMemOffset →
          eff.action = .replacedBy (offset2addr m elem.old_version))) ∧
      ((elem.valid = false ∨ CheckPrevLinkage m elem = false) →
        eff.action = .skipped) := by
  unfold Rollback
  rw [h]
  by_cases hv : elem.valid = true ∧ CheckPrevLinkage m elem = true
  · obtain ⟨hv1, hv2⟩ := hv
    by_cases hov : elem.old_version = kNullPMemOffset
    · refine ⟨⟨.removed, true⟩, by simp [hv1, hv2, hov], rfl, ?_, ?_⟩
      · exact fun _ _ => ⟨fun _ => rfl, fun hc => absurd hov hc⟩
      · rintro (hc | hc)
        · rw [hv1] at hc; cases hc
        · rw [hv2] at hc; cases hc
    · refine ⟨⟨.replacedBy (offset2addr m elem.old_version), true⟩,
        by simp [hv1, hv2, hov], rfl, ?_, ?_⟩
      · exact fun _ _ => ⟨fun hc => absurd hc hov, fun _ => rfl⟩
      · rintro (hc | hc)
        · rw [hv1] at hc; cases hc
        · rw [hv2] at hc; cases hc
  · have hcond : (elem.valid && CheckPrevLinkage m elem) = false := by
      cases h1 : elem.valid with
      | false => simp
      | true =>
          cases h2 : CheckPrevLinkage m elem with
          | false => simp
          | true => exact absurd ⟨h1, h2⟩ hv
    refine ⟨⟨.skipped, true⟩, by simp [hcond], rfl, ?_, fun _ => rfl⟩
    intro hv1 hv2
    exact absurd ⟨hv1, hv2⟩ hv

/-- Concrete memory for the C7 witness: a valid element at offset 3 with
intact prev linkage and a null `old_version`. -/
def c7Prev : DLRecord :=
  ⟨2, .SortedElem, .Normal, 4, "a", 10, 3, 3, kNullPMemOffset, true, false⟩

def c7Elem : DLRecord :=
  ⟨3, .SortedElem, .Normal, 4, "b", 20, 2, 2, kNullPMemOffset, true, false⟩

def c7Mem : Mem :=
  fun o => if o = 2 then some c7Prev else if o = 3 then some c7Elem else none

/-- Witness for C7: on the concrete memory, the rolled-back fresh insert is
removed and destroyed. -/
theorem C7_rollback_behaviour_witness :
    ∃ eff, Rollback c7Mem 3 = (.Ok, some eff) ∧ eff.destroyed = true ∧
      (c7Elem.valid = true → CheckPrevLinkage c7Mem c7Elem = true →
        (c7Elem.old_version = kNullPMemOffset → eff.action = .removed) ∧
        (c7Elem.old_version ≠ kNullPMemOffset →
          eff.action = .replacedBy (offset2addr c7Mem c7Elem.old_version))) ∧
      ((c7Elem.valid = false ∨ CheckPrevLinkage c7Mem c7Elem = false) →
        eff.action = .skipped) :=
  C7_rollback_behaviour c7Mem 3 c7Elem rfl

/-! ### Reclamation (rebuilder.cpp:588-612) -/

/-- The records destroyed and batched for freeing by
`SortedCollectionRebuilder::cleanInvalidRecords` out of one worker's
unlinked queue (rebuilder.cpp:592-601): a record is destroyed when
`!Skiplist::MatchType(r) || !CheckLinkage(r)`. -/
def cleanInvalidRecordsDestroyed (m : Mem) (unlinked : List DLRecord) :
    List DLRecord :=
  unlinked.filter (fun r => !MatchType r || !CheckLinkage m r)

/-- A sorted element whose linkage is broken (its neighbours are unmapped in
`c6Mem` below): it passes the `MatchType` re-check but fails the
`CheckLinkage` re-check. -/
def c6r : DLRecord :=
  ⟨5, .SortedElem, .Normal, 4, "x", 10, 6, 7, kNullPMemOffset, true, false⟩

def c6Mem : Mem :=
  fun o => if o = 5 then some c6r else none

/-- C6 counterexample.  `c6r` passes the `MatchType` re-check (so by the
claim it should be left intact), yet `cleanInvalidRecords` destroys and
batches it, because the code destroys a record that fails *either* re-check
(`!MatchType || !CheckLinkage`, rebuilder.cpp:594-595), not only one that
fails both. -/
theorem C6_destroy_needs_both_failures_counterexample :
    MatchType c6r = true ∧
    cleanInvalidRecordsDestroyed c6Mem [c6r] = [c6r] := by
  constructor
  · rfl
  · rfl

/-- C6 amended.  A queued record is destroyed and batched for freeing
exactly when it fails the `MatchType` re-check *or* the `CheckLinkage`
re-check; it is left intact only when it passes both. -/
theorem C6_destroyed_iff_some_check_fails (m : Mem)
    (unlinked : List DLRecord) (r : DLRecord) :
    r ∈ cleanInvalidRecordsDestroyed m unlinked ↔
      r ∈ unlinked ∧ (MatchType r = false ∨ CheckLinkage m r = false) := by
  unfold cleanInvalidRecordsDestroyed
  rw [List.mem_filter]
  constructor
  · rintro ⟨hmem, hcond⟩
    refine ⟨hmem, ?_⟩
    cases h1 : MatchType r with
    | false => exact Or.inl rfl
    | true =>
        cases h2 : CheckLinkage m r with
        | false => exact Or.inr rfl
        | true =>
            rw [h1, h2] at hcond
            cases hcond
  · rintro ⟨hmem, h1 | h1⟩
    · exact ⟨hmem, by simp [h1]⟩
    · exact ⟨hmem, by simp [h1]⟩

/-! ### Hash-index insertion (rebuilder.cpp:621-674) -/

/-- The status switch of `SortedCollectionRebuilder::insertHashIndex`
(rebuilder.cpp:653-671), abstracted over the status reported by the
external `HashTable::Insert` (the key and tagged index pointer only flow
into `Insert`; the returned status depends solely on `lookup_result.s`). -/
def insertHashIndex (insert_status : Status) : Status :=
  match insert_status with
  | .NotFound => .Ok
  | .Ok => .Abort
  | s => s

/-- C9.  `insertHashIndex` returns `Ok` when the hash table's `Insert`
reports `NotFound` (the slot was empty), returns the fatal `Abort` when
`Insert` reports `Ok` (an entry already existed), and propagates any other
status unchanged. -/
theorem C9_insertHashIndex_status_mapping :
    insertHashIndex .NotFound = .Ok ∧
    insertHashIndex .Ok = .Abort ∧
    (∀ s, s ≠ .NotFound → s ≠ .Ok → insertHashIndex s = s) := by
  refine ⟨rfl, rfl, ?_⟩
  intro s h1 h2
  cases s with
  | Ok => exact absurd rfl h2
  | NotFound => exact absurd rfl h1
  | Abort => rfl
  | MemoryOverflow => rfl
  | PmemOverflow => rfl

/-- Witness for C9 at the concrete pass-through status
`MemoryOverflow`. -/
theorem C9_insertHashIndex_status_mapping_witness :
    insertHashIndex .MemoryOverflow = .MemoryOverflow :=
  C9_insertHashIndex_status_mapping.2.2 .MemoryOverflow
    (by decide) (by decide)

/-! ### Candidate intake (rebuilder.cpp:42-93) -/

/-- The rebuilder state mutated by the intake entry points: the shared
`linked_headers_` vector, the (flattened) thread-local
`unlinked_records` queues, the extents already purged and freed, and the
nominated recovery-segment start records (`recovery_segments_` keys). -/
structure IntakeState where
  linked_headers : List DLRecord
  unlinked_records : List DLRecord
  freed : List DLRecord
  recovery_segments : List DLRecord
deriving DecidableEq, Repr

/-- `SortedCollectionRebuilder::AddHeader` (rebuilder.cpp:42-60).  `linked`
is the result of the external `CheckAndRepairLinkage`. -/
def AddHeader (ckpt : Nat) (linked : Bool) (rec : DLRecord)
    (st : IntakeState) : Status × IntakeState :=
  if !linked then
    if !recoverToCheckpoint ckpt then
      (.Ok, { st with freed := st.freed ++ [rec] })
    else
      (.Ok, { st with unlinked_records := st.unlinked_records ++ [rec] })
  else
    (.Ok, { st with linked_headers := st.linked_headers ++ [rec] })

/-- `SortedCollectionRebuilder::AddElement` (rebuilder.cpp:62-93).
`linked` is the result of the external `CheckAndRepairLinkage`;
`stride_hit` abstracts the thread-local visit-counter test
`++visited_skiplists[id] % kRestoreSkiplistStride == 0`; the
`findCheckpointVersion(record) == record` pointer comparison becomes an
offset comparison.  A nominated start record is added to
`recovery_segments` (`addRecoverySegment`; the `NewNodeBuild` retry loop
always yields a node for it). -/
def AddElement (m : Mem) (ckpt fuel : Nat)
    (segment_based stride_hit linked : Bool) (rec : DLRecord)
    (st : IntakeState) : Status × IntakeState :=
  if !linked then
    if !recoverToCheckpoint ckpt then
      (.Ok, { st with freed := st.freed ++ [rec] })
    else
      (.Ok, { st with unlinked_records := st.unlinked_records ++ [rec] })
  else
    if segment_based && stride_hit &&
        (match findCheckpointVersion m ckpt rec fuel with
         | some (some v) => v.off == rec.off
         | _ => false) &&
        (rec.typ == .SortedElem) then
      (.Ok, { st with recovery_segments := st.recovery_segments ++ [rec] })
    else
      (.Ok, st)

/-- C8.  A candidate whose linkage `CheckAndRepairLinkage` cannot repair:
with a checkpoint targeted it is queued on the thread-local unlinked list
and not freed, otherwise it is immediately purged and freed; it is never
appended to `linked_headers` and never nominated as a recovery-segment
start — under both `AddHeader` and `AddElement`. -/
theorem C8_unrepairable_record_routing (m : Mem) (ckpt fuel : Nat)
    (segment_based stride_hit linked : Bool) (rec : DLRecord)
    (st : IntakeState) (hlinked : linked = false) :
    ((AddHeader ckpt linked rec st).2.linked_headers = st.linked_headers ∧
      (AddElement m ckpt fuel segment_based stride_hit linked rec
        st).2.linked_headers = st.linked_headers) ∧
    ((AddHeader ckpt linked rec st).2.recovery_segments =
        st.recovery_segments ∧
      (AddElement m ckpt fuel segment_based stride_hit linked rec
        st).2.recovery_segments = st.recovery_segments) ∧
    (recoverToCheckpoint ckpt = true →
      (AddHeader ckpt linked rec st).2.unlinked_records =
          st.unlinked_records ++ [rec] ∧
      (AddHeader ckpt linked rec st).2.freed = st.freed ∧
      (AddElement m ckpt fuel segment_based stride_hit linked rec
          st).2.unlinked_records = st.unlinked_records ++ [rec] ∧
      (AddElement m ckpt fuel segment_based stride_hit linked rec
          st).2.freed = st.freed) ∧
    (recoverToCheckpoint ckpt = false →
      (AddHeader ckpt linked rec st).2.freed = st.freed ++ [rec] ∧
      (AddHeader ckpt linked rec st).2.unlinked_records =
          st.unlinked_records ∧
      (AddElement m ckpt fuel segment_based stride_hit linked rec
          st).2.freed = st.freed ++ [rec] ∧
      (AddElement m ckpt fuel segment_based stride_hit linked rec
          st).2.unlinked_records = st.unlinked_records) := by
  subst hlinked
  by_cases hck : recoverToCheckpoint ckpt = true
  · refine ⟨⟨?_, ?_⟩, ⟨?_, ?_⟩, ?_, ?_⟩ <;>
      simp [AddHeader, AddElement, hck]
  · have hck' : recoverToCheckpoint ckpt = false :=
      eq_false_of_ne_true hck
    refine ⟨⟨?_, ?_⟩, ⟨?_, ?_⟩, ?_, ?_⟩ <;>
      simp [AddHeader, AddElement, hck']

/-- Concrete state and record for the C8 witness. -/
def c8r : DLRecord :=
  ⟨6, .SortedElem, .Normal, 4, "y", 10, 1, 2, kNullPMemOffset, true, false⟩

def c8st : IntakeState := ⟨[], [], [], []⟩

def c8Mem : Mem := fun _ => none

/-- Witness for C8: with checkpoint 100 targeted, the unrepairable record
lands on the unlinked queue of both entry points. -/
theorem C8_unrepairable_record_routing_witness :
    (AddHeader 100 false c8r c8st).2.unlinked_records =
        c8st.unlinked_records ++ [c8r] ∧
    (AddHeader 100 false c8r c8st).2.freed = c8st.freed ∧
    (AddElement c8Mem 100 5 true true false c8r
        c8st).2.unlinked_records = c8st.unlinked_records ++ [c8r] ∧
    (AddElement c8Mem 100 5 true true false c8r c8st).2.freed =
        c8st.freed :=
  ((C8_unrepairable_record_routing c8Mem 100 5 true true false c8r c8st
    rfl).2.2.1) rfl

/-- C10.  `AddHeader`, `AddElement` and `Rollback` return `Ok` on every
input, whatever the record's validation or linkage state: candidate intake
and rollback never abort recovery with an error status. -/
theorem C10_intake_and_rollback_always_ok :
    ∀ (m : Mem) (ckpt fuel : Nat) (sb sh linked : Bool) (rec : DLRecord)
      (st : IntakeState) (off : Nat),
      (AddHeader ckpt linked rec st).1 = .Ok ∧
      (AddElement m ckpt fuel sb sh linked rec st).1 = .Ok ∧
      (Rollback m off).1 = .Ok := by
  intro m ckpt fuel sb sh linked rec st off
  refine ⟨?_, ?_, ?_⟩
  · unfold AddHeader
    cases linked <;> cases h2 : recoverToCheckpoint ckpt <;> simp [h2]
  · unfold AddElement
    cases linked with
    | false => cases h2 : recoverToCheckpoint ckpt <;> simp [h2]
    | true =>
        rw [if_neg (by simp)]
        split <;> rfl
  · unfold Rollback
    cases offset2addr m off with
    | none => rfl
    | some elem =>
        cases hval : elem.valid <;>
          cases hprev : CheckPrevLinkage m elem <;>
            by_cases hov : elem.old_version = kNullPMemOffset <;>
              simp [hval, hprev, hov]

/-! ### Header classification (rebuilder.cpp:180-242) -/

/-- Decoded sorted-collection configuration
(`Skiplist::DecodeSortedCollectionValue` output). -/
structure SConfigs where
  comparator_name : String
  index_with_hashtable : Bool
deriving DecidableEq, Repr

/-- Which rebuilder map a created skiplist lands in. -/
inductive SkiplistBucket where
  | invalid
  | rebuild
deriving DecidableEq, Repr

/-- Observable outcome of classifying one surviving header in
`initRebuildLists`: the record the `Skiplist` object is bound to, the
hash-index flag passed to its constructor, the map it is stored into,
whether `Skiplist::Replace(header, visible)` ran (queueing the original
header unlinked), whether the visible record's `old_version` was persisted
to null, and whether the skiplist was inserted into the hash index. -/
structure HeaderResolution where
  boundTo : DLRecord
  indexWithHashtable : Bool
  bucket : SkiplistBucket
  replacedHeader : Bool
  clearedOldVersion : Bool
  insertedHashIndex : Bool
deriving DecidableEq, Repr

/-- Classification of one surviving header in `initRebuildLists`
(rebuilder.cpp:180-242), after a successful decode of `(id, configs)` and
comparator lookup.  Returns `none` only on fuel exhaustion of the
checkpoint-version walk. -/
def resolveHeader (m : Mem) (ckpt fuel : Nat) (header : DLRecord)
    (id : Nat) (cfg : SConfigs) : Option HeaderResolution :=
  match findCheckpointVersion m ckpt header fuel with
  | none => none
  | some none => some ⟨header, false, .invalid, false, false, false⟩
  | some (some v) =>
      if v.id ≠ id then
        some ⟨header, false, .invalid, false, false, false⟩
      else
        let replaced := v.off ≠ header.off
        if v.status = .Outdated ∨ v.expired = true then
          some ⟨v, false, .invalid, replaced, false, false⟩
        else
          some ⟨v, cfg.index_with_hashtable, .rebuild, replaced, true, true⟩

/-- C4.  Classification of a surviving header: with no visible version or a
visible version of a different collection ID, an invalid skiplist bound to
the original header is created with hash indexing disabled; with a visible
version that is `Outdated` or expired, an invalid skiplist bound to the
visible record is created; otherwise a rebuild skiplist is created with the
`index_with_hashtable` flag from the decoded configs, the visible record's
`old_version` is cleared to null, the skiplist is inserted into the hash
index, and the header was replaced on media by the visible version exactly
when they differ. -/
theorem C4_header_classification (m : Mem) (ckpt fuel : Nat)
    (header : DLRecord) (id : Nat) (cfg : SConfigs)
    (res : HeaderResolution)
    (h : resolveHeader m ckpt fuel header id cfg = some res) :
    (findCheckpointVersion m ckpt header fuel = some none →
      res = ⟨header, false, .invalid, false, false, false⟩) ∧
    (∀ v, findCheckpointVersion m ckpt header fuel = some (some v) →
      (v.id ≠ id → res = ⟨header, false, .invalid, false, false, false⟩) ∧
      (v.id = id → (v.status = .Outdated ∨ v.expired = true) →
        res = ⟨v, false, .invalid, v.off ≠ header.off, false, false⟩) ∧
      (v.id = id → v.status ≠ .Outdated → v.expired = false →
        res = ⟨v, cfg.index_with_hashtable, .rebuild, v.off ≠ header.off,
          true, true⟩)) := by
  constructor
  · intro hfv
    rw [show resolveHeader m ckpt fuel header id cfg =
        some ⟨header, false, .invalid, false, false, false⟩ from by
      unfold resolveHeader
      rw [hfv]] at h
    exact (Option.some_injective _ h).symm
  · intro v hfv
    have hsome : resolveHeader m ckpt fuel header id cfg =
        (if v.id ≠ id then
          some ⟨header, false, .invalid, false, false, false⟩
        else if v.status = .Outdated ∨ v.expired = true then
          some ⟨v, false, .invalid, v.off ≠ header.off, false, false⟩
        else
          some ⟨v, cfg.index_with_hashtable, .rebuild, v.off ≠ header.off,
            true, true⟩) := by
      unfold resolveHeader
      rw [hfv]
    rw [hsome] at h
    refine ⟨?_, ?_, ?_⟩
    · intro hid
      rw [if_pos hid] at h
      exact (Option.some_injective _ h).symm
    · intro hid hout
      rw [if_neg (by simpa using hid), if_pos hout] at h
      exact (Option.some_injective _ h).symm
    · intro hid hst hexp
      rw [if_neg (by simpa using hid),
        if_neg (by simp [hst, hexp])] at h
      exact (Option.some_injective _ h).symm

/-- Concrete input for the C4 witness: the header's visible version is an
older, non-outdated, non-expired header record of the same collection, so a
rebuild skiplist is created after replacing the header on media. -/
def c4Visible : DLRecord :=
  ⟨12, .SortedRecord, .Normal, 42, "list", 80, 12, 12, kNullPMemOffset,
    true, false⟩

def c4Header : DLRecord :=
  ⟨11, .SortedRecord, .Normal, 42, "list", 300, 11, 11, 12, true, false⟩

def c4Mem : Mem :=
  fun o => if o = 11 then some c4Header else
    if o = 12 then some c4Visible else none

def c4Cfg : SConfigs := ⟨"cmp", true⟩

/-- Witness for C4: on the concrete input with checkpoint 100, the rebuild
branch is taken with the decoded hash-index flag. -/
theorem C4_header_classification_witness :
    (findCheckpointVersion c4Mem 100 c4Header 5 = some none →
      (⟨c4Visible, c4Cfg.index_with_hashtable, .rebuild,
        c4Visible.off ≠ c4Header.off, true, true⟩ : HeaderResolution) =
        ⟨c4Header, false, .invalid, false, false, false⟩) ∧
    (∀ v, findCheckpointVersion c4Mem 100 c4Header 5 = some (some v) →
      (v.id ≠ 42 →
        (⟨c4Visible, c4Cfg.index_with_hashtable, .rebuild,
          c4Visible.off ≠ c4Header.off, true, true⟩ : HeaderResolution) =
          ⟨c4Header, false, .invalid, false, false, false⟩) ∧
      (v.id = 42 → (v.status = .Outdated ∨ v.expired = true) →
        (⟨c4Visible, c4Cfg.index_with_hashtable, .rebuild,
          c4Visible.off ≠ c4Header.off, true, true⟩ : HeaderResolution) =
          ⟨v, false, .invalid, v.off ≠ c4Header.off, false, false⟩) ∧
      (v.id = 42 → v.status ≠ .Outdated → v.expired = false →
        (⟨c4Visible, c4Cfg.index_with_hashtable, .rebuild,
          c4Visible.off ≠ c4Header.off, true, true⟩ : HeaderResolution) =
          ⟨v, c4Cfg.index_with_hashtable, .rebuild, v.off ≠ c4Header.off,
            true, true⟩)) :=
  C4_header_classification c4Mem 100 5 c4Header 42 c4Cfg
    ⟨c4Visible, c4Cfg.index_with_hashtable, .rebuild,
      c4Visible.off ≠ c4Header.off, true, true⟩ rfl

/-! ### Duplicate-header unlinking (rebuilder.cpp:119-154) -/

theorem memUpd_ne (m : Mem) (r : DLRecord) (o : Nat) (h : o ≠ r.off) :
    memUpd m r o = m o := by
  simp [memUpd, h]

theorem offset2addr_memUpd_ne (m : Mem) (r : DLRecord) (o : Nat)
    (h : o ≠ r.off) : offset2addr (memUpd m r) o = offset2addr m o := by
  unfold offset2addr
  by_cases h0 : o = kNullPMemOffset
  · simp [h0]
  · simp [h0, memUpd_ne m r o h]

/-- The duplicate-header unlinking pass of `initRebuildLists`
(rebuilder.cpp:133-154) over the sorted `linked_headers_`: a header whose
successor carries the same collection ID has its `prev` persisted to the
successor's offset (`PersistPrevNT`, line 148) and is queued unlinked
(`addUnlinkedRecord`, line 152); every other header survives to
classification.  Returns (final memory, unlinked-queued records, surviving
headers). -/
def dedupHeaders (m : Mem) (hs : List DLRecord) :
    Mem × List DLRecord × List DLRecord :=
  match hs with
  | [] => (m, [], [])
  | [h] => (m, [], [h])
  | h :: h2 :: t =>
      if h.id = h2.id then
        let h' := { h with prev := h2.off }
        let out := dedupHeaders (memUpd m h') (h2 :: t)
        (out.1, h' :: out.2.1, out.2.2)
      else
        let out := dedupHeaders m (h2 :: t)
        (out.1, out.2.1, h :: out.2.2)

theorem dedupHeaders_cons₂ (m : Mem) (h h2 : DLRecord) (t : List DLRecord) :
    dedupHeaders m (h :: h2 :: t) =
      if h.id = h2.id then
        ((dedupHeaders (memUpd m { h with prev := h2.off }) (h2 :: t)).1,
          { h with prev := h2.off } ::
            (dedupHeaders (memUpd m { h with prev := h2.off })
              (h2 :: t)).2.1,
          (dedupHeaders (memUpd m { h with prev := h2.off }) (h2 :: t)).2.2)
      else
        ((dedupHeaders m (h2 :: t)).1,
          (dedupHeaders m (h2 :: t)).2.1,
          h :: (dedupHeaders m (h2 :: t)).2.2) := by
  rfl

/-- The pass never touches memory outside the offsets of its input. -/
theorem dedup_mem_outside :
    ∀ (hs : List DLRecord) (m : Mem) (o : Nat),
      (∀ x ∈ hs, o ≠ x.off) → (dedupHeaders m hs).1 o = m o := by
  intro hs
  induction hs with
  | nil => intro m o _; rfl
  | cons h rest ih =>
      intro m o ho
      cases rest with
      | nil => rfl
      | cons h2 t =>
          by_cases hid : h.id = h2.id
          · rw [dedupHeaders_cons₂, if_pos hid]
            show (dedupHeaders (memUpd m { h with prev := h2.off })
                (h2 :: t)).1 o = m o
            rw [ih (memUpd m { h with prev := h2.off }) o
              (fun x hx => ho x (List.mem_cons_of_mem _ hx))]
            exact memUpd_ne _ _ _ (ho h (List.mem_cons_self _ _))
          · rw [dedupHeaders_cons₂, if_neg hid]
            exact ih m o (fun x hx => ho x (List.mem_cons_of_mem _ hx))

/-- Every queued record is an input header with its `prev` redirected to the
offset of another input header of the same collection ID. -/
theorem dedup_unlinked_shape :
    ∀ (hs : List DLRecord) (m : Mem) (u : DLRecord),
      u ∈ (dedupHeaders m hs).2.1 →
      ∃ x, x ∈ hs ∧ ∃ y, y ∈ hs ∧ u = { x with prev := y.off } ∧
        x.id = y.id := by
  intro hs
  induction hs with
  | nil => intro m u hu; exact absurd hu (by simp [dedupHeaders])
  | cons h rest ih =>
      intro m u hu
      cases rest with
      | nil => exact absurd hu (by simp [dedupHeaders])
      | cons h2 t =>
          by_cases hid : h.id = h2.id
          · rw [dedupHeaders_cons₂, if_pos hid] at hu
            rcases List.mem_cons.mp hu with rfl | hu'
            · exact ⟨h, List.mem_cons_self _ _, h2,
                List.mem_cons_of_mem _ (List.mem_cons_self _ _), rfl, hid⟩
            · obtain ⟨x, hx, y, hy, hux, hxy⟩ := ih _ u hu'
              exact ⟨x, List.mem_cons_of_mem _ hx, y,
                List.mem_cons_of_mem _ hy, hux, hxy⟩
          · rw [dedupHeaders_cons₂, if_neg hid] at hu
            obtain ⟨x, hx, y, hy, hux, hxy⟩ := ih _ u hu
            exact ⟨x, List.mem_cons_of_mem _ hx, y,
              List.mem_cons_of_mem _ hy, hux, hxy⟩

/-- At an input header's offset, the final memory holds a record with the
same offset and the same `next` field (the pass only rewrites `prev`). -/
theorem dedup_mem_at :
    ∀ (hs : List DLRecord) (m : Mem),
      (hs.Pairwise fun a b => a.off ≠ b.off) →
      (∀ x ∈ hs, m x.off = some x) →
      ∀ x ∈ hs, ∃ r, (dedupHeaders m hs).1 x.off = some r ∧
        r.off = x.off ∧ r.next = x.next := by
  intro hs
  induction hs with
  | nil => intro m _ _ x hx; exact absurd hx (by simp)
  | cons h rest ih =>
      intro m hoffs hmem x hx
      obtain ⟨hof1, hof2⟩ := List.pairwise_cons.mp hoffs
      cases rest with
      | nil =>
          rcases List.mem_singleton.mp hx with rfl
          exact ⟨x, hmem x (List.mem_cons_self _ _), rfl, rfl⟩
      | cons h2 t =>
          by_cases hid : h.id = h2.id
          · rw [dedupHeaders_cons₂, if_pos hid]
            have hmem' : ∀ y ∈ h2 :: t,
                memUpd m { h with prev := h2.off } y.off = some y := by
              intro y hy
              rw [memUpd_ne _ _ _
                (show y.off ≠ ({ h with prev := h2.off } : DLRecord).off from
                  fun he => hof1 y hy he.symm)]
              exact hmem y (List.mem_cons_of_mem _ hy)
            rcases List.mem_cons.mp hx with rfl | hx'
            · refine ⟨{ x with prev := h2.off }, ?_, rfl, rfl⟩
              show (dedupHeaders (memUpd m { x with prev := h2.off })
                  (h2 :: t)).1 x.off = _
              rw [dedup_mem_outside (h2 :: t) _ x.off
                (fun y hy => hof1 y hy)]
              simp [memUpd]
            · exact ih (memUpd m { h with prev := h2.off }) hof2 hmem' x hx'
          · rw [dedupHeaders_cons₂, if_neg hid]
            rcases List.mem_cons.mp hx with rfl | hx'
            · refine ⟨x, ?_, rfl, rfl⟩
              show (dedupHeaders m (h2 :: t)).1 x.off = _
              rw [dedup_mem_outside (h2 :: t) m x.off
                (fun y hy => hof1 y hy)]
              exact hmem x (List.mem_cons_self _ _)
            · exact ih m hof2
                (fun y hy => hmem y (List.mem_cons_of_mem _ hy)) x hx'

/-- Survivors of the pass are input headers. -/
theorem dedup_surv_subset :
    ∀ (hs : List DLRecord) (m : Mem) (x : DLRecord),
      x ∈ (dedupHeaders m hs).2.2 → x ∈ hs := by
  intro hs
  induction hs with
  | nil => intro m x hx; exact absurd hx (by simp [dedupHeaders])
  | cons h rest ih =>
      intro m x hx
      cases rest with
      | nil =>
          rcases show x = h from by simpa [dedupHeaders] using hx with rfl
          exact List.mem_cons_self _ _
      | cons h2 t =>
          by_cases hid : h.id = h2.id
          · rw [dedupHeaders_cons₂, if_pos hid] at hx
            exact List.mem_cons_of_mem _ (ih _ x hx)
          · rw [dedupHeaders_cons₂, if_neg hid] at hx
            rcases List.mem_cons.mp hx with rfl | hx'
            · exact List.mem_cons_self _ _
            · exact List.mem_cons_of_mem _ (ih m x hx')

/-- C3.  On the headers sorted by (collection ID ascending, timestamp
ascending), every header of a run of equal IDs other than the youngest has
its `prev` persisted to a same-ID header's offset, both `CheckPrevLinkage`
and `CheckNextLinkage` fail on it in the resulting memory, and it is queued
unlinked (the queued list of `dedupHeaders`); the surviving headers have
pairwise distinct collection IDs, so at most one header per collection ID
remains linked.  The hypotheses mirror the intake guarantees and the
`kvdk_assert` of rebuilder.cpp:141-145: headers are mapped at their
pairwise-distinct non-null offsets, a header with a same-ID successor is
self-linked, and every linked header passes the next-linkage check. -/
theorem C3_duplicate_header_unlinking (hs : List DLRecord) (m : Mem)
    (hsorted : hs.Pairwise fun a b =>
      a.id < b.id ∨ (a.id = b.id ∧ a.timestamp ≤ b.timestamp))
    (hoffs : hs.Pairwise fun a b => a.off ≠ b.off)
    (hnull : ∀ h ∈ hs, h.off ≠ kNullPMemOffset)
    (hmem : ∀ h ∈ hs, m h.off = some h)
    (hself : hs.Chain' fun a b =>
      a.id = b.id → a.prev = a.off ∧ a.next = a.off)
    (hnextlink : ∀ h ∈ hs, CheckNextLinkage m h = true) :
    (∀ u ∈ (dedupHeaders m hs).2.1,
      (∃ y ∈ hs, u.id = y.id ∧ u.prev = y.off) ∧
      CheckPrevLinkage (dedupHeaders m hs).1 u = false ∧
      CheckNextLinkage (dedupHeaders m hs).1 u = false) ∧
    (dedupHeaders m hs).2.2.Pairwise (fun a b => a.id ≠ b.id) := by
  induction hs generalizing m with
  | nil =>
      exact ⟨fun u hu => absurd hu (by simp [dedupHeaders]),
        by simp [dedupHeaders]⟩
  | cons h rest ih =>
      cases rest with
      | nil =>
          exact ⟨fun u hu => absurd hu (by simp [dedupHeaders]),
            by simp [dedupHeaders]⟩
      | cons h2 t =>
          obtain ⟨hso1, hso2⟩ := List.pairwise_cons.mp hsorted
          obtain ⟨hof1, hof2⟩ := List.pairwise_cons.mp hoffs
          have hnull2 : ∀ x ∈ h2 :: t, x.off ≠ kNullPMemOffset :=
            fun x hx => hnull x (List.mem_cons_of_mem _ hx)
          have hmem2 : ∀ x ∈ h2 :: t, m x.off = some x :=
            fun x hx => hmem x (List.mem_cons_of_mem _ hx)
          obtain ⟨hR, hself2⟩ := List.chain'_cons.mp hself
          have hnl2 : ∀ x ∈ h2 :: t, CheckNextLinkage m x = true :=
            fun x hx => hnextlink x (List.mem_cons_of_mem _ hx)
          by_cases hid : h.id = h2.id
          · obtain ⟨hps, hns⟩ := hR hid
            obtain ⟨l, hl⟩ : ∃ l : DLRecord,
                l = { h with prev := h2.off } := ⟨_, rfl⟩
            have hlprev : l.prev = h2.off := by rw [hl]
            have hlnext : l.next = h.next := by rw [hl]
            have hloff : l.off = h.off := by rw [hl]
            have hlid : l.id = h.id := by rw [hl]
            have hQ : (dedupHeaders m (h :: h2 :: t)).2.1 =
                l :: (dedupHeaders (memUpd m l) (h2 :: t)).2.1 := by
              rw [hl, dedupHeaders_cons₂, if_pos hid]
            have hM : (dedupHeaders m (h :: h2 :: t)).1 =
                (dedupHeaders (memUpd m l) (h2 :: t)).1 := by
              rw [hl, dedupHeaders_cons₂, if_pos hid]
            have hS : (dedupHeaders m (h :: h2 :: t)).2.2 =
                (dedupHeaders (memUpd m l) (h2 :: t)).2.2 := by
              rw [hl, dedupHeaders_cons₂, if_pos hid]
            have hA : ∀ x ∈ h2 :: t, x.next ≠ h.off := by
              intro x hx hcontra
              have hcx := hnl2 x hx
              unfold CheckNextLinkage at hcx
              rw [hcontra] at hcx
              rw [show offset2addr m h.off = some h from by
                unfold offset2addr
                rw [if_neg (hnull h (List.mem_cons_self _ _))]
                exact hmem h (List.mem_cons_self _ _)] at hcx
              simp only [Option.map_some', Option.getD_some] at hcx
              have hpx : h.prev = x.off := by simpa using hcx
              rw [hps] at hpx
              exact hof1 x hx hpx
            have hmem' : ∀ x ∈ h2 :: t, memUpd m l x.off = some x := by
              intro x hx
              rw [memUpd_ne _ _ _ (show x.off ≠ l.off from by
                rw [hloff]
                exact fun he => hof1 x hx he.symm)]
              exact hmem2 x hx
            have hnl' : ∀ x ∈ h2 :: t,
                CheckNextLinkage (memUpd m l) x = true := by
              intro x hx
              unfold CheckNextLinkage
              rw [offset2addr_memUpd_ne m l x.next (by
                rw [hloff]
                exact hA x hx)]
              exact hnl2 x hx
            have IHrec := ih (memUpd m l) hso2 hof2 hnull2 hmem' hself2 hnl'
            constructor
            · intro u hu
              rw [hQ] at hu
              rcases List.mem_cons.mp hu with rfl | hu'
              · refine ⟨⟨h2,
                  List.mem_cons_of_mem _ (List.mem_cons_self _ _),
                  by rw [hlid]; exact hid, hlprev⟩, ?_, ?_⟩
                · rw [hM]
                  obtain ⟨r, hr, hroff, hrnext⟩ := dedup_mem_at (h2 :: t)
                    (memUpd m u) hof2 hmem' h2 (List.mem_cons_self _ _)
                  unfold CheckPrevLinkage
                  rw [show offset2addr
                      (dedupHeaders (memUpd m u) (h2 :: t)).1 u.prev =
                      some r from by
                    rw [hlprev]
                    unfold offset2addr
                    rw [if_neg (hnull2 h2 (List.mem_cons_self _ _))]
                    exact hr]
                  simp only [Option.map_some', Option.getD_some,
                    beq_eq_false_iff_ne, ne_eq]
                  intro hcontra
                  rw [hrnext, hloff] at hcontra
                  exact hA h2 (List.mem_cons_self _ _) hcontra
                · rw [hM]
                  have hMval : (dedupHeaders (memUpd m u) (h2 :: t)).1
                      h.off = some u := by
                    rw [dedup_mem_outside (h2 :: t) (memUpd m u) h.off hof1]
                    rw [← hloff]
                    unfold memUpd
                    rw [if_pos rfl]
                  unfold CheckNextLinkage
                  rw [show offset2addr
                      (dedupHeaders (memUpd m u) (h2 :: t)).1 u.next =
                      some u from by
                    rw [hlnext, hns]
                    unfold offset2addr
                    rw [if_neg (hnull h (List.mem_cons_self _ _))]
                    exact hMval]
                  simp only [Option.map_some', Option.getD_some,
                    beq_eq_false_iff_ne, ne_eq]
                  intro hcontra
                  rw [hlprev, hloff] at hcontra
                  exact hof1 h2 (List.mem_cons_self _ _) hcontra.symm
              · obtain ⟨⟨y, hy, hy1, hy2⟩, hcp, hcn⟩ := IHrec.1 u hu'
                exact ⟨⟨y, List.mem_cons_of_mem _ hy, hy1, hy2⟩,
                  by rw [hM]; exact hcp, by rw [hM]; exact hcn⟩
            · rw [hS]
              exact IHrec.2
          · have hQ : (dedupHeaders m (h :: h2 :: t)).2.1 =
                (dedupHeaders m (h2 :: t)).2.1 := by
              rw [dedupHeaders_cons₂, if_neg hid]
            have hM : (dedupHeaders m (h :: h2 :: t)).1 =
                (dedupHeaders m (h2 :: t)).1 := by
              rw [dedupHeaders_cons₂, if_neg hid]
            have hS : (dedupHeaders m (h :: h2 :: t)).2.2 =
                h :: (dedupHeaders m (h2 :: t)).2.2 := by
              rw [dedupHeaders_cons₂, if_neg hid]
            have IHrec := ih m hso2 hof2 hnull2 hmem2 hself2 hnl2
            constructor
            · intro u hu
              rw [hQ] at hu
              obtain ⟨⟨y, hy, hy1, hy2⟩, hcp, hcn⟩ := IHrec.1 u hu
              exact ⟨⟨y, List.mem_cons_of_mem _ hy, hy1, hy2⟩,
                by rw [hM]; exact hcp, by rw [hM]; exact hcn⟩
            · rw [hS]
              refine List.pairwise_cons.mpr ⟨?_, IHrec.2⟩
              intro b hb
              have hbmem := dedup_surv_subset (h2 :: t) m b hb
              rcases List.mem_cons.mp hbmem with rfl | hbt
              · exact hid
              · have h1 : h.id < h2.id := by
                  rcases hso1 h2 (List.mem_cons_self _ _) with hlt | ⟨heq, _⟩
                  · exact hlt
                  · exact absurd heq hid
                have h2b : h2.id ≤ b.id := by
                  obtain ⟨hso21, _⟩ := List.pairwise_cons.mp hso2
                  rcases hso21 b hbt with hlt | ⟨heq, _⟩
                  · exact Nat.le_of_lt hlt
                  · exact Nat.le_of_eq heq
                omega

/-- S1 scenario records for the C3 witness: two self-linked headers of
collection 42, timestamps 100 and 200. -/
def c3A : DLRecord :=
  ⟨10, .SortedRecord, .Normal, 42, "list42", 100, 10, 10, kNullPMemOffset,
    true, false⟩

def c3B : DLRecord :=
  ⟨20, .SortedRecord, .Normal, 42, "list42", 200, 20, 20, kNullPMemOffset,
    true, false⟩

def c3Mem : Mem :=
  fun o => if o = 10 then some c3A else if o = 20 then some c3B else none

/-- Witness for C3: on the S1 scenario, the older duplicate header (broken
to point at the younger one) fails both linkage checks in the resulting
memory. -/
theorem C3_duplicate_header_unlinking_witness :
    CheckPrevLinkage (dedupHeaders c3Mem [c3A, c3B]).1
        { c3A with prev := c3B.off } = false ∧
    CheckNextLinkage (dedupHeaders c3Mem [c3A, c3B]).1
        { c3A with prev := c3B.off } = false :=
  have H := C3_duplicate_header_unlinking [c3A, c3B] c3Mem (by decide)
    (by decide) (by decide) (by decide)
    (List.chain'_cons.mpr ⟨fun _ => ⟨rfl, rfl⟩, List.chain'_singleton _⟩)
    (by decide)
  ⟨(H.1 { c3A with prev := c3B.off } (by decide)).2.1,
    (H.1 { c3A with prev := c3B.off } (by decide)).2.2⟩

/-! ### Index rebuild, list-based vs segment-based
(rebuilder.cpp:322-418, 489-565)

Both modes are modelled over one rebuild skiplist's on-media element
sequence (the records between header and header, in `next` order); separate
collections are processed independently in both modes.  The observables
compared are the ones named by the spec's parity property: the final
on-media sequence (kept records, `old_version` cleared), the element count
published by `UpdateSize`, the hash-index contents as (internal key ↦ the
persistent record the entry resolves to — entries point at the in-memory
node when `NewNodeBuild` yields one, else at the record, so records are the
address-independent content), and the records queued unlinked.  The
in-memory towers built by `NewNodeBuild` / `linkHighDramNodes` are the
"in-memory node addresses" the spec excludes from the comparison. -/

/-- Outcome of one element during an index-rebuild walk
(rebuilder.cpp:509-527 and 362-378): its checkpoint-visible version is
null or `Outdated` (drop: `Skiplist::Remove`, queue unlinked) or visible
(keep the visible version, replacing on media when it differs). -/
inductive ElemAction where
  | drop
  | keep (v : DLRecord)
deriving DecidableEq, Repr

def resolveElem (m : Mem) (ckpt fuel : Nat) (e : DLRecord) :
    Option ElemAction :=
  match findCheckpointVersion m ckpt e fuel with
  | none => none
  | some none => some .drop
  | some (some v) =>
      if v.status = .Outdated then some .drop
      else some (.keep v)

/-- `PersistOldVersion(kNullPMemOffset)` on a kept record. -/
def clearOldVersion (r : DLRecord) : DLRecord :=
  { r with old_version := kNullPMemOffset }

/-- Observables of rebuilding one collection's index. -/
structure RebuildOut where
  media : List DLRecord
  count : Nat
  hash : List (String × DLRecord)
  unlinked : List DLRecord
deriving DecidableEq, Repr

/-- `rebuildSkiplistIndex` (rebuilder.cpp:489-565) over the element
sequence of one collection: walk in `next` order from the header; for each
element resolve the checkpoint-visible version; drop (remove and queue
unlinked) on null/`Outdated`; else keep the visible version (replacing and
queueing the original when it differs), count it, record its hash entry
under the walk key when the skiplist indexes with hashtable, and clear its
`old_version`. -/
def rebuildListBased (m : Mem) (ckpt fuel : Nat) (hashIdx : Bool) :
    List DLRecord → Option RebuildOut
  | [] => some ⟨[], 0, [], []⟩
  | e :: rest =>
      match resolveElem m ckpt fuel e with
      | none => none
      | some .drop =>
          match rebuildListBased m ckpt fuel hashIdx rest with
          | none => none
          | some out =>
              some ⟨out.media, out.count, out.hash, e :: out.unlinked⟩
      | some (.keep v) =>
          match rebuildListBased m ckpt fuel hashIdx rest with
          | none => none
          | some out =>
              some ⟨clearOldVersion v :: out.media, out.count + 1,
                (if hashIdx then [(e.key, clearOldVersion v)] else []) ++
                  out.hash,
                (if v.off ≠ e.off then [e] else []) ++ out.unlinked⟩

/-- `segmentBasedIndexRebuild` + `rebuildSegmentIndex`
(rebuilder.cpp:248-418) over the same element sequence: the sequence is
partitioned at the records registered in `recovery_segments_` (`isStart`);
each segment walk stops on reaching the next start (rebuilder.cpp:405-414)
or the header (line 350), and the worker owning the start processes it
unconditionally — counting it, inserting its hash entry when enabled, and
clearing its `old_version` (rebuilder.cpp:327-342) — without resolving its
visible version or checking its status; interior elements are processed
exactly as in the list-based walk (rebuilder.cpp:362-404).  Flattened over
the segment partition, the per-element effects are therefore the
list-based ones for non-start elements and the unconditional start step
for start elements; counts sum across segments through `UpdateSize`. -/
def rebuildSegmentBased (m : Mem) (ckpt fuel : Nat) (hashIdx : Bool)
    (isStart : DLRecord → Bool) : List DLRecord → Option RebuildOut
  | [] => some ⟨[], 0, [], []⟩
  | e :: rest =>
      if isStart e then
        match rebuildSegmentBased m ckpt fuel hashIdx isStart rest with
        | none => none
        | some out =>
            some ⟨clearOldVersion e :: out.media, out.count + 1,
              (if hashIdx then [(e.key, clearOldVersion e)] else []) ++
                out.hash,
              out.unlinked⟩
      else
        match resolveElem m ckpt fuel e with
        | none => none
        | some .drop =>
            match rebuildSegmentBased m ckpt fuel hashIdx isStart rest with
            | none => none
            | some out =>
                some ⟨out.media, out.count, out.hash, e :: out.unlinked⟩
        | some (.keep v) =>
            match rebuildSegmentBased m ckpt fuel hashIdx isStart rest with
            | none => none
            | some out =>
                some ⟨clearOldVersion v :: out.media, out.count + 1,
                  (if hashIdx then [(e.key, clearOldVersion v)] else []) ++
                    out.hash,
                  (if v.off ≠ e.off then [e] else []) ++ out.unlinked⟩

theorem rebuildListBased_cons (m : Mem) (ckpt fuel : Nat) (hashIdx : Bool)
    (e : DLRecord) (rest : List DLRecord) :
    rebuildListBased m ckpt fuel hashIdx (e :: rest) =
      match resolveElem m ckpt fuel e with
      | none => none
      | some .drop =>
          match rebuildListBased m ckpt fuel hashIdx rest with
          | none => none
          | some out =>
              some ⟨out.media, out.count, out.hash, e :: out.unlinked⟩
      | some (.keep v) =>
          match rebuildListBased m ckpt fuel hashIdx rest with
          | none => none
          | some out =>
              some ⟨clearOldVersion v :: out.media, out.count + 1,
                (if hashIdx then [(e.key, clearOldVersion v)] else []) ++
                  out.hash,
                (if v.off ≠ e.off then [e] else []) ++ out.unlinked⟩ := by
  rfl

theorem rebuildSegmentBased_cons (m : Mem) (ckpt fuel : Nat)
    (hashIdx : Bool) (isStart : DLRecord → Bool) (e : DLRecord)
    (rest : List DLRecord) :
    rebuildSegmentBased m ckpt fuel hashIdx isStart (e :: rest) =
      if isStart e then
        match rebuildSegmentBased m ckpt fuel hashIdx isStart rest with
        | none => none
        | some out =>
            some ⟨clearOldVersion e :: out.media, out.count + 1,
              (if hashIdx then [(e.key, clearOldVersion e)] else []) ++
                out.hash,
              out.unlinked⟩
      else
        match resolveElem m ckpt fuel e with
        | none => none
        | some .drop =>
            match rebuildSegmentBased m ckpt fuel hashIdx isStart rest with
            | none => none
            | some out =>
                some ⟨out.media, out.count, out.hash, e :: out.unlinked⟩
        | some (.keep v) =>
            match rebuildSegmentBased m ckpt fuel hashIdx isStart rest with
            | none => none
            | some out =>
                some ⟨clearOldVersion v :: out.media, out.count + 1,
                  (if hashIdx then [(e.key, clearOldVersion v)] else []) ++
                    out.hash,
                  (if v.off ≠ e.off then [e] else []) ++ out.unlinked⟩ := by
  rfl

/-- An `Outdated` sorted element that is its own checkpoint-visible version
and is registered as a recovery-segment start. -/
def c2Out : DLRecord :=
  ⟨30, .SortedElem, .Normal, 42, "k42", 50, 10, 11, kNullPMemOffset, true,
    false⟩

def c2OutB : DLRecord :=
  { c2Out with status := .Outdated }

def c2Mem : Mem :=
  fun o => if o = 30 then some c2OutB else none

def c2IsStart : DLRecord → Bool :=
  fun r => r.off == 30

/-- C2 counterexample.  On the same single-element input — an `Outdated`
element that satisfies the segment-nomination conditions of `AddElement`
(`SortedElem` and its own checkpoint-visible version) and is registered as
a segment start — list-based rebuild removes the element (count 0, empty
media and hash), while segment-based rebuild keeps, counts and hash-indexes
it unconditionally (rebuilder.cpp:327-342 never check `RecordStatus`), so
the two modes do not produce identical linkage, counts, or hash
contents. -/
theorem C2_mode_parity_counterexample :
    c2OutB.typ = .SortedElem ∧
    findCheckpointVersion c2Mem 0 c2OutB 5 = some (some c2OutB) ∧
    c2IsStart c2OutB = true ∧
    rebuildListBased c2Mem 0 5 true [c2OutB] =
      some ⟨[], 0, [], [c2OutB]⟩ ∧
    rebuildSegmentBased c2Mem 0 5 true c2IsStart [c2OutB] =
      some ⟨[clearOldVersion c2OutB], 1,
        [(c2OutB.key, clearOldVersion c2OutB)], []⟩ ∧
    ([] : List DLRecord) ≠ [clearOldVersion c2OutB] ∧ (0 : Nat) ≠ 1 := by
  refine ⟨rfl, rfl, rfl, rfl, rfl, ?_, by decide⟩
  decide

/-- C2 amended.  List-based and segment-based rebuild produce identical
final on-media linkage, identical element counts, identical hash-index
contents (and identical unlinked queues) on every input, provided every
record registered as a recovery-segment start is its own checkpoint-visible
version (the condition `AddElement` nominates under and
`rebuildSegmentIndex` asserts) and is not `Outdated`; without the latter
condition an `Outdated` start is kept by segment mode but removed by list
mode. -/
theorem C2_mode_parity (m : Mem) (ckpt fuel : Nat) (hashIdx : Bool)
    (isStart : DLRecord → Bool) (elems : List DLRecord)
    (hstart : ∀ e ∈ elems, isStart e = true →
      findCheckpointVersion m ckpt e fuel = some (some e) ∧
        e.status ≠ .Outdated) :
    rebuildSegmentBased m ckpt fuel hashIdx isStart elems =
      rebuildListBased m ckpt fuel hashIdx elems := by
  induction elems with
  | nil => rfl
  | cons e rest ih =>
      have ih' := ih (fun x hx hs =>
        hstart x (List.mem_cons_of_mem _ hx) hs)
      by_cases hs : isStart e = true
      · obtain ⟨hfcv, hstat⟩ := hstart e (List.mem_cons_self _ _) hs
        have hres : resolveElem m ckpt fuel e = some (.keep e) := by
          unfold resolveElem
          rw [hfcv]
          show (if e.status = RecordStatus.Outdated then some ElemAction.drop
            else some (ElemAction.keep e)) = some (ElemAction.keep e)
          rw [if_neg hstat]
        rw [rebuildSegmentBased_cons, rebuildListBased_cons, if_pos hs,
          ih', hres]
        cases rebuildListBased m ckpt fuel hashIdx rest with
        | none => rfl
        | some out => simp
      · rw [rebuildSegmentBased_cons, rebuildListBased_cons, if_neg hs, ih']

/-- Records for the C2-amended witness: a normal element followed by a
normal segment start, each its own visible version (checkpoint 100). -/
def c2wA : DLRecord :=
  ⟨31, .SortedElem, .Normal, 42, "a42", 60, 10, 32, kNullPMemOffset, true,
    false⟩

def c2wB : DLRecord :=
  ⟨32, .SortedElem, .Normal, 42, "b42", 70, 31, 11, kNullPMemOffset, true,
    false⟩

def c2wMem : Mem :=
  fun o => if o = 31 then some c2wA else if o = 32 then some c2wB else none

def c2wIsStart : DLRecord → Bool :=
  fun r => r.off == 32

/-- Witness for the amended C2 on a concrete two-element list with one
well-formed segment start. -/
theorem C2_mode_parity_witness :
    rebuildSegmentBased c2wMem 100 5 true c2wIsStart [c2wA, c2wB] =
      rebuildListBased c2wMem 100 5 true [c2wA, c2wB] :=
  C2_mode_parity c2wMem 100 5 true c2wIsStart [c2wA, c2wB] (by decide)

end KVDK
